import Mathlib

set_option maxRecDepth 8000

/-!
# Verification of the resume-generator synthesis pipeline

Shallow embedding of the Go sources of `woragis/resume-generator`:

* `server/internal/usecase/types.go`      — Override Normalizer
* `server/internal/usecase/processor.go`  — Synthesis Orchestrator (`Process`)
* stage validators/enrichers (`Stage1..4Validator`, `Stage1..4Enrich`)
* `server/pkg/ai/client.go`               — Content Service Client

Dynamic Go values (`interface{}` as produced by `encoding/json`) are modelled
by the inductive type `Jv`; Go maps (`map[string]interface{}`) by association
lists with first-match lookup and in-place update, which is adequate here
because no verified claim depends on Go's randomized map iteration order.
Go `len` on strings counts bytes, modelled by `goLen` (UTF-8 byte size).
-/

namespace ResumeGen

/-- Dynamic JSON-ish value: the universe of Go `interface{}` values produced
by `encoding/json.Unmarshal` (nil, bool, number, string, `[]interface{}`,
`map[string]interface{}`).  Go numbers are `float64`; no verified claim
depends on numeric values, so they are carried as `Int`. -/
inductive Jv where
  | null : Jv
  | boolv (b : Bool) : Jv
  | num (n : Int) : Jv
  | str (s : String) : Jv
  | arr (xs : List Jv) : Jv
  | obj (kvs : List (String × Jv)) : Jv
deriving Repr

/-- A Go `map[string]interface{}` value. -/
abbrev GoMap := List (String × Jv)

/-- `m[k]` lookup (first matching key). -/
def mget (m : GoMap) (k : String) : Option Jv :=
  match m.find? (fun kv => kv.1 == k) with
  | some kv => some kv.2
  | none => none

/-- `m[k] = v` update: replaces the first binding of `k`, else appends. -/
def mset (m : GoMap) (k : String) (v : Jv) : GoMap :=
  match m with
  | [] => [(k, v)]
  | (k', v') :: rest => if k' = k then (k, v) :: rest else (k', v') :: mset rest k v

/-- `_, ok := m[k]` presence test. -/
def mhas (m : GoMap) (k : String) : Bool :=
  (mget m k).isSome

/-- `s, ok := m[k].(string)`: the value of `k` when present and a string. -/
def getStr (m : GoMap) (k : String) : Option String :=
  match mget m k with
  | some (Jv.str s) => some s
  | _ => none

/-- UTF-8 byte count of a character list. -/
def utf8Len (l : List Char) : Nat :=
  l.foldr (fun c n => c.utf8Size + n) 0

/-- Go `len(s)` for a string: its UTF-8 byte count. -/
def goLen (s : String) : Nat :=
  utf8Len s.data

theorem utf8Len_append (a b : List Char) :
    utf8Len (a ++ b) = utf8Len a + utf8Len b := by
  induction a with
  | nil => simp [utf8Len]
  | cons c tl ih =>
    simp [utf8Len, List.foldr] at *
    omega

theorem goLen_append (a b : String) :
    goLen (a ++ b) = goLen a + goLen b := by
  cases a; cases b
  simp [goLen, String.data]
  exact utf8Len_append _ _

mutual
/-- Go `fmt.Sprintf("%v", v)` for a dynamic JSON value.  Faithful for the
scalar cases; composite values render as Go's `[elem ...]` / `map[k:v ...]`
(Go sorts map keys when printing; bindings are rendered in list order here —
no verified claim depends on the rendering of composite values). -/
def goFmt : Jv → String
  | Jv.null => "<nil>"
  | Jv.boolv b => if b then "true" else "false"
  | Jv.num n => toString n
  | Jv.str s => s
  | Jv.arr xs => "[" ++ goFmtList xs ++ "]"
  | Jv.obj kvs => "map[" ++ goFmtObj kvs ++ "]"

def goFmtList : List Jv → String
  | [] => ""
  | [x] => goFmt x
  | x :: rest => goFmt x ++ " " ++ goFmtList rest

def goFmtObj : List (String × Jv) → String
  | [] => ""
  | [kv] => kv.1 ++ ":" ++ goFmt kv.2
  | kv :: rest => kv.1 ++ ":" ++ goFmt kv.2 ++ " " ++ goFmtObj rest
end

/-! ## Override Normalizer (`server/internal/usecase/types.go`) -/

/-- `usecase.Certification`. -/
structure Certification where
  name : String := ""
  issuer : String := ""
  date : String := ""
  url : String := ""
  description : String := ""
deriving Repr

/-- `usecase.ExtraItem`. -/
structure ExtraItem where
  category : String
  text : String
deriving Repr

/-- `usecase.Overrides`. -/
structure Overrides where
  publications : List String := []
  certifications : List Certification := []
  extras : List ExtraItem := []
  other : GoMap := []
deriving Repr

/-- Drops leading whitespace characters. -/
def trimLeft : List Char → List Char
  | [] => []
  | c :: rest => if c.isWhitespace then trimLeft rest else c :: rest

/-- `strings.TrimSpace` (leading and trailing whitespace; Go's
`unicode.IsSpace` also covers a few exotic space code points that no claim
exercises). -/
def trimSpace (s : String) : String :=
  String.mk ((trimLeft (trimLeft s.data).reverse).reverse)

/-- Go slice `s[:140]` used to truncate extras text.  Go slices bytes; the
model truncates at the greatest character boundary not exceeding 140 bytes
(identical for the ASCII-boundary inputs the claims exercise). -/
def truncBytes (budget : Nat) : List Char → List Char
  | [] => []
  | c :: rest =>
    if c.utf8Size ≤ budget then c :: truncBytes (budget - c.utf8Size) rest
    else []

def trunc140 (s : String) : String :=
  if goLen s > 140 then String.mk (truncBytes 140 s.data) else s

/-- The deterministic suffix synthesized for short publications
(`formatPub` in `NewOverridesFromMap`); `year` is `time.Now().Year()`. -/
def pubSuffix (year : Nat) : String :=
  " — " ++ toString year ++ ". A published article describing architecture, performance improvements, and key takeaways."

/-- `formatPub` inside `NewOverridesFromMap`: trims, and expands strings
shorter than 40 bytes with the deterministic synthesized suffix. -/
def formatPub (year : Nat) (s : String) : String :=
  let t := trimSpace s
  if goLen t ≥ 40 then t
  else t ++ pubSuffix year

/-- The non-title fallback for an object-shaped publication item: a
non-empty string `outline` is expanded via `formatPub`, anything else is
stringified and expanded. -/
def pubFromOutline (year : Nat) (kvs : GoMap) : String :=
  match getStr kvs "outline" with
  | some o => if o ≠ "" then formatPub year o else formatPub year (goFmt (Jv.obj kvs))
  | none => formatPub year (goFmt (Jv.obj kvs))

/-- One `publications` array item of `NewOverridesFromMap`. -/
def normalizePubItem (year : Nat) (v : Jv) : String :=
  match v with
  | Jv.str s => formatPub year s
  | Jv.obj kvs =>
    match getStr kvs "title" with
    | some t =>
      if t ≠ "" then
        match getStr kvs "outline" with
        | some o => if o ≠ "" then t ++ " — " ++ o else t
        | none => t
      else pubFromOutline year kvs
    | none => pubFromOutline year kvs
  | v => formatPub year (goFmt v)

/-- The `publications` key handling of `NewOverridesFromMap`.  (The Go
`case []string` arm is unreachable for `encoding/json`-decoded input, which
always yields `[]interface{}`; the dynamic-value model has no separate
`[]string` shape.) -/
def normalizePubs (year : Nat) (m : GoMap) : List String :=
  match mget m "publications" with
  | none => []
  | some (Jv.arr items) => items.map (normalizePubItem year)
  | some (Jv.str s) => [formatPub year s]
  | some v => [formatPub year (goFmt v)]

/-- One `certifications` array item of `NewOverridesFromMap`. -/
def normalizeCertItem (v : Jv) : Certification :=
  match v with
  | Jv.str s => { name := s }
  | Jv.obj kvs =>
    { name := (getStr kvs "name").getD ""
      issuer := (getStr kvs "issuer").getD ""
      date := (getStr kvs "date").getD ""
      url := (getStr kvs "url").getD ""
      description := (getStr kvs "description").getD "" }
  | v => { name := goFmt v }

/-- The `certifications` key handling of `NewOverridesFromMap`. -/
def normalizeCerts (m : GoMap) : List Certification :=
  match mget m "certifications" with
  | none => []
  | some (Jv.arr items) => items.map normalizeCertItem
  | some (Jv.str s) => [{ name := s }]
  | some v => [{ name := goFmt v }]

/-- One `extras` array item of `NewOverridesFromMap`. -/
def normalizeExtraItem (v : Jv) : ExtraItem :=
  match v with
  | Jv.str s => { category := "misc", text := trunc140 (trimSpace s) }
  | Jv.obj kvs =>
    let cat := match getStr kvs "category" with
               | some c => if c ≠ "" then c else "misc"
               | none => "misc"
    let txt := match getStr kvs "text" with
               | some s => trunc140 s
               | none => ""
    { category := cat, text := txt }
  | v => { category := "misc", text := goFmt v }

/-- The `extras` key handling of `NewOverridesFromMap`. -/
def normalizeExtras (m : GoMap) : List ExtraItem :=
  match mget m "extras" with
  | none => []
  | some (Jv.str s) => [{ category := "misc", text := trunc140 (trimSpace s) }]
  | some (Jv.arr items) => items.map normalizeExtraItem
  | some v => [{ category := "misc", text := goFmt v }]

/-- `usecase.NewOverridesFromMap`.  `year` is `time.Now().Year()` (used by
`formatPub`); the input is `nil` or a decoded JSON object. -/
def NewOverridesFromMap (year : Nat) (m? : Option GoMap) : Overrides :=
  match m? with
  | none => { other := [] }
  | some m =>
    { publications := normalizePubs year m
      certifications := normalizeCerts m
      extras := normalizeExtras m
      other := m.filter (fun kv =>
        kv.1 ≠ "publications" ∧ kv.1 ≠ "certifications" ∧ kv.1 ≠ "extras") }

/-- One certification object built by `Overrides.ToMap`. -/
def certToMap (c : Certification) : GoMap :=
  let m : GoMap := [("name", Jv.str c.name)]
  let m := if c.issuer ≠ "" then mset m "issuer" (Jv.str c.issuer) else m
  let m := if c.date ≠ "" then mset m "date" (Jv.str c.date) else m
  let m := if c.url ≠ "" then mset m "url" (Jv.str c.url) else m
  if c.description ≠ "" then mset m "description" (Jv.str c.description) else m

/-- The typed part of `Overrides.ToMap`: the three normalized sections,
each emitted only when non-empty. -/
def toMapBase (o : Overrides) : GoMap :=
  let out : GoMap := []
  let out := if o.publications.length > 0 then
      mset out "publications" (Jv.arr (o.publications.map Jv.str)) else out
  let out := if o.certifications.length > 0 then
      mset out "certifications" (Jv.arr (o.certifications.map (fun c => Jv.obj (certToMap c)))) else out
  if o.extras.length > 0 then
      mset out "extras" (Jv.arr (o.extras.map (fun e =>
        Jv.obj [("category", Jv.str e.category), ("text", Jv.str e.text)]))) else out

/-- `usecase.Overrides.ToMap` (receiver non-nil; the nil-receiver arm
returns the empty map): the typed sections, then the passthrough keys that
do not collide with an already-set key. -/
def Overrides.ToMap (o : Overrides) : GoMap :=
  o.other.foldl (fun acc kv => if mhas acc kv.1 then acc else mset acc kv.1 kv.2)
    (toMapBase o)

/-! ## Stage validators and enrichers (`stage_validators.go`) -/

/-- `usecase.StageValidationResult`. -/
structure StageValidationResult where
  valid : Bool
  missing : List String
  partialMap : GoMap
  error : String := ""
deriving Repr

/-- `Stage3Validator`: Showcase content — `projects[]`, `publications[]`,
`certifications[]` must each be present non-empty arrays. -/
def Stage3Validator (resumeMap : GoMap) : StageValidationResult :=
  let r : StageValidationResult := { valid := true, missing := [], partialMap := [] }
  let r := match mget resumeMap "projects" with
    | none => { r with valid := false, missing := r.missing ++ ["projects"] }
    | some (Jv.arr (x :: xs)) => { r with partialMap := mset r.partialMap "projects" (Jv.arr (x :: xs)) }
    | some _ => { r with valid := false, missing := r.missing ++ ["projects (empty or invalid)"] }
  let r := match mget resumeMap "publications" with
    | none => { r with valid := false, missing := r.missing ++ ["publications"] }
    | some (Jv.arr (x :: xs)) => { r with partialMap := mset r.partialMap "publications" (Jv.arr (x :: xs)) }
    | some _ => { r with valid := false, missing := r.missing ++ ["publications (empty or invalid)"] }
  match mget resumeMap "certifications" with
    | none => { r with valid := false, missing := r.missing ++ ["certifications"] }
    | some (Jv.arr (x :: xs)) => { r with partialMap := mset r.partialMap "certifications" (Jv.arr (x :: xs)) }
    | some _ => { r with valid := false, missing := r.missing ++ ["certifications (empty or invalid)"] }

/-- The `summary` check of `Stage4Validator`: a string of byte length in
[80,330].  (When the `summary` value is present but not a string, Go's
failed type assertion leaves `sum = ""`, so the recorded message reports
length 0.) -/
def stage4SummaryCheck (resumeMap : GoMap) (r : StageValidationResult) :
    StageValidationResult :=
  match mget resumeMap "summary" with
  | none => { r with valid := false, missing := r.missing ++ ["summary"] }
  | some (Jv.str s) =>
    if s = "" ∨ goLen s < 80 ∨ goLen s > 330 then
      { r with valid := false,
               missing := r.missing ++ ["summary (invalid length: " ++ toString (goLen s) ++ ")"] }
    else { r with partialMap := mset r.partialMap "summary" (Jv.str s) }
  | some _ => { r with valid := false, missing := r.missing ++ ["summary (invalid length: 0)"] }

/-- The `extras` check of `Stage4Validator`: a present non-empty array. -/
def stage4ExtrasCheck (resumeMap : GoMap) (r : StageValidationResult) :
    StageValidationResult :=
  match mget resumeMap "extras" with
  | none => { r with valid := false, missing := r.missing ++ ["extras"] }
  | some (Jv.arr (x :: xs)) => { r with partialMap := mset r.partialMap "extras" (Jv.arr (x :: xs)) }
  | some _ => { r with valid := false, missing := r.missing ++ ["extras (empty or invalid)"] }

/-- `Stage4Validator`: Synthesis — summary check then extras check. -/
def Stage4Validator (resumeMap : GoMap) : StageValidationResult :=
  stage4ExtrasCheck resumeMap
    (stage4SummaryCheck resumeMap { valid := true, missing := [], partialMap := [] })

/-- `Stage3Enrich`.  The two content-service calls and the slice-schema
check are oracle parameters: `fmtRes` is the result of
`FormatPublicationsCertsExtras` (`none` covers both a transport error and a
nil output, which return early without touching the document), `schemaOk`
models `model.ValidateMapWithSchema("templates/schema/publications.schema.json", ·) == nil`,
and `enrichRes` the result of the fallback `EnrichResume` call.  Returns the
(possibly mutated) working document together with the returned error. -/
def Stage3Enrich (schemaOk : GoMap → Bool) (fmtRes enrichRes : Option GoMap)
    (validation : StageValidationResult) (resumeMap : GoMap) : GoMap × Option String :=
  if validation.valid then (resumeMap, none)
  else
    match fmtRes with
    | none => (resumeMap, some "Stage3Enrich: FormatPublicationsCertsExtras failed")
    | some out =>
      let out? : Option GoMap := if schemaOk out then some out else enrichRes
      match out? with
      | none => (resumeMap, some "Stage3Enrich: enrichment failed")
      | some out2 =>
        let rm2 := ["projects", "publications", "certifications"].foldl
          (fun acc key => match mget out2 key with
            | some v => mset acc key v
            | none => acc) resumeMap
        let reval := Stage3Validator rm2
        if reval.valid then (rm2, none)
        else (rm2, some "Stage3Enrich: still invalid after enrichment")

/-! ## Synthesis Orchestrator (`server/internal/usecase/processor.go`) -/

/-- The stage-D merge of `Process` (summary + meta polish): the candidate
summary is merged only when its byte length is within [80,220]; meta fields
are merged into the existing meta, preserving a present non-empty `name`.
(Go iterates `metaRaw` in random order; JSON-decoded maps have unique keys,
so the fold order does not affect the result.) -/
def summaryMergeStep (out resumeMap : GoMap) : GoMap :=
  match mget out "summary" with
  | some (Jv.str s) =>
    if goLen s < 80 ∨ goLen s > 220 then resumeMap
    else mset resumeMap "summary" (Jv.str s)
  | _ => resumeMap

def metaMergeStep (out rm1 : GoMap) : GoMap :=
  match mget out "meta" with
  | some (Jv.obj metaRaw) =>
    let metaObj : GoMap := match mget rm1 "meta" with
      | some (Jv.obj m) => m
      | _ => []
    let metaObj := metaRaw.foldl (fun acc kv =>
      if kv.1 = "name" then
        match mget acc "name" with
        | none => mset acc "name" kv.2
        | some (Jv.str "") => mset acc "name" kv.2
        | some _ => acc
      else mset acc kv.1 kv.2) metaObj
    mset rm1 "meta" (Jv.obj metaObj)
  | _ => rm1

def summaryMetaMerge (out resumeMap : GoMap) : GoMap :=
  metaMergeStep out (summaryMergeStep out resumeMap)

/-- `normalizeForSchema` inside `Process`: coerces `publications` to an
array of strings, `certifications` to an array of objects, and `extras` to
an array of `{category, text}` objects.  (The Go code's second pass over the
already-stringified publications array is a no-op and is folded in.) -/
def normalizeForSchema (m : GoMap) : GoMap :=
  let m := match mget m "publications" with
    | none => m
    | some (Jv.arr items) => mset m "publications"
        (Jv.arr (items.map (fun it => match it with
          | Jv.str s => Jv.str s
          | v => Jv.str (goFmt v))))
    | some (Jv.str t) => mset m "publications" (Jv.arr [Jv.str t])
    | some v => mset m "publications" (Jv.arr [Jv.str (goFmt v)])
  let m := match mget m "certifications" with
    | none => m
    | some (Jv.arr items) => mset m "certifications"
        (Jv.arr (items.map (fun it => match it with
          | Jv.str s => Jv.obj [("name", Jv.str s)]
          | Jv.obj kvs => Jv.obj kvs
          | v => Jv.obj [("name", Jv.str (goFmt v))])))
    | some (Jv.str t) => mset m "certifications" (Jv.arr [Jv.obj [("name", Jv.str t)]])
    | some v => mset m "certifications" (Jv.arr [Jv.obj [("name", Jv.str (goFmt v))]])
  match mget m "extras" with
    | none => m
    | some (Jv.str t) => mset m "extras"
        (Jv.arr [Jv.obj [("category", Jv.str "misc"), ("text", Jv.str (trunc140 (trimSpace t)))]])
    | some (Jv.arr items) => mset m "extras"
        (Jv.arr (items.map (fun it => match it with
          | Jv.str s => Jv.obj [("category", Jv.str "misc"), ("text", Jv.str (trunc140 (trimSpace s)))]
          | Jv.obj kvs =>
            let cat := match getStr kvs "category" with
                       | some c => if c ≠ "" then c else "misc"
                       | none => "misc"
            let txt := match getStr kvs "text" with
                       | some s => trunc140 s
                       | none => ""
            Jv.obj [("category", Jv.str cat), ("text", Jv.str txt)]
          | v => Jv.obj [("category", Jv.str "misc"), ("text", Jv.str (goFmt v))])))
    | some v => mset m "extras"
        (Jv.arr [Jv.obj [("category", Jv.str "misc"), ("text", Jv.str (goFmt v))]])

/-- Error message of the hard validation gate
(`"ai response validation failed: %w"`). -/
def gateErrMsg : String := "ai response validation failed"

/-- The targeted-merge loop of the gate: copies the keys
`publications`/`certifications`/`extras` that are present in `src` onto
`base`; the flag records whether anything was copied. -/
def copyOverrideKeys (src base : GoMap) : GoMap × Bool :=
  ["publications", "certifications", "extras"].foldl
    (fun acc k => match mget src k with
      | some v => (mset acc.1 k v, true)
      | none => acc) (base, false)

/-- The final validation gate of `Process` (lines 541–571), for an arbitrary
full-resume validator `validate` (modelling `model.ValidateMap · == nil`).
Go mutation is made explicit: `normalizeForSchema` mutates `resumeMap` in
place before the first validation; `tryMerge` aliases `baseResume`, so on a
failed targeted merge the final re-validation at line 569 sees the merged,
normalized map again and fails, returning the validation error. -/
def finalGate (validate : GoMap → Bool) (resumeMap baseResume : GoMap) :
    Except String GoMap :=
  if validate (normalizeForSchema resumeMap) then
    Except.ok (normalizeForSchema resumeMap)
  else
    if (copyOverrideKeys (normalizeForSchema resumeMap) baseResume).2 then
      if validate (normalizeForSchema
          (copyOverrideKeys (normalizeForSchema resumeMap) baseResume).1) then
        Except.ok (normalizeForSchema
          (copyOverrideKeys (normalizeForSchema resumeMap) baseResume).1)
      else Except.error gateErrMsg
    else
      if validate baseResume then Except.ok baseResume else Except.error gateErrMsg

/-- Extraction of the first aggregated profile's meta fields
(`Process` lines 578–600): a nested `meta` object is used directly,
otherwise the recognized flat fields are copied. -/
def extractProfileMeta (aggMap : GoMap) : Option GoMap :=
  match mget aggMap "profiles" with
  | some (Jv.arr (first :: _)) =>
    match first with
    | Jv.obj fkvs =>
      match mget fkvs "meta" with
      | some (Jv.obj mkvs) => some mkvs
      | _ => some (["name", "headline", "contact", "website", "bio", "social_links"].foldl
          (fun acc k => match mget fkvs k with
            | some v => mset acc k v
            | none => acc) [])
    | _ => none
  | _ => none

/-- One missing/empty string field backfill of the meta hard-merge
(`name` and `headline`): copied from the profile when the document's value
is absent or the empty string. -/
def backfillField (pm metaObj : GoMap) (key : String) : GoMap :=
  match getStr pm key with
  | some v =>
    (match mget metaObj key with
     | none => mset metaObj key (Jv.str v)
     | some (Jv.str "") => mset metaObj key (Jv.str v)
     | some _ => metaObj)
  | none => metaObj

/-- The `contact` backfill of the meta hard-merge: copied when the
document's value is absent or nil. -/
def backfillContact (pm metaObj : GoMap) : GoMap :=
  match mget pm "contact" with
  | some (Jv.obj c) =>
    (match mget metaObj "contact" with
     | none => mset metaObj "contact" (Jv.obj c)
     | some Jv.null => mset metaObj "contact" (Jv.obj c)
     | some _ => metaObj)
  | _ => metaObj

/-- The `social_links` backfill of the meta hard-merge: an existing value
counts as present only when it is a non-empty map. -/
def backfillSocial (pm metaObj : GoMap) : GoMap :=
  match mget pm "social_links" with
  | some sl =>
    let has := match mget metaObj "social_links" with
      | some (Jv.obj mm) => decide (0 < mm.length)
      | _ => false
    if has then metaObj else mset metaObj "social_links" sl
  | none => metaObj

/-- The post-gate meta hard-merge of `Process` (lines 576–641): backfills
missing/empty `meta.name`, `meta.headline`, `meta.contact` and
`meta.social_links` from the first aggregated profile record. -/
def backfillMeta (agg? : Option GoMap) (rm : GoMap) : GoMap :=
  match agg? with
  | none => rm
  | some aggMap =>
    match extractProfileMeta aggMap with
    | none => rm
    | some profileMeta =>
      let metaObj : GoMap := match mget rm "meta" with
        | some (Jv.obj m) => m
        | _ => []
      mset rm "meta" (Jv.obj
        (backfillSocial profileMeta
          (backfillContact profileMeta
            (backfillField profileMeta
              (backfillField profileMeta metaObj "name") "headline"))))

/-- One item of the `mergePubs` closure inside `Process` (lines 648–687):
strings pass through, objects are reduced to their non-empty `title`
(else non-empty `outline`) string, anything else is kept as-is. -/
def mergePubItem (itm : Jv) : Jv :=
  match itm with
  | Jv.str s => Jv.str s
  | Jv.obj kvs =>
    (match getStr kvs "title" with
     | some s =>
       if s ≠ "" then Jv.str s
       else match getStr kvs "outline" with
            | some o => if o ≠ "" then Jv.str o else Jv.obj kvs
            | none => Jv.obj kvs
     | none =>
       match getStr kvs "outline" with
       | some o => if o ≠ "" then Jv.str o else Jv.obj kvs
       | none => Jv.obj kvs)
  | v => v

/-- `mergePubs` inside `Process`. -/
def mergePubsAgg (pubsRaw : Jv) : Jv :=
  match pubsRaw with
  | Jv.null => Jv.arr []
  | Jv.arr items => Jv.arr (items.map mergePubItem)
  | Jv.str s => Jv.arr [Jv.str s]
  | v => Jv.arr [v]

/-- One section backfill: when the document's value under `key` is absent
or an empty array, fill it from the aggregated value transformed by `tf`. -/
def backfillSection (aggMap rm : GoMap) (key : String) (tf : Jv → Jv) : GoMap :=
  match mget rm key with
  | none =>
    (match mget aggMap key with
     | some v => mset rm key (tf v)
     | none => rm)
  | some (Jv.arr []) =>
    (match mget aggMap key with
     | some v => mset rm key (tf v)
     | none => rm)
  | some _ => rm

/-- The post-gate sections backfill of `Process` (lines 644–730):
`publications` filled via `mergePubs`, `certifications` verbatim. -/
def backfillSections (agg? : Option GoMap) (rm : GoMap) : GoMap :=
  match agg? with
  | none => rm
  | some aggMap =>
    backfillSection aggMap
      (backfillSection aggMap rm "publications" mergePubsAgg) "certifications" id

/-- Both post-gate backfill passes of `Process`, in source order. -/
def backfillAll (agg? : Option GoMap) (rm : GoMap) : GoMap :=
  backfillSections agg? (backfillMeta agg? rm)

/-- The gate followed by the backfill passes: the document this yields is
the one `Process` assigns to `job.Profile` and hands to rendering. -/
def postGate (validate : GoMap → Bool) (agg? : Option GoMap)
    (resumeMap baseResume : GoMap) : Except String GoMap :=
  (finalGate validate resumeMap baseResume).map (backfillAll agg?)

/-- Modelled from the spec: the full resume JSON Schema
(`templates/resume.schema.json`) is a configuration artifact not present in
the source tree; this decidable validator follows the spec's data model
(§3) and schema constraints (§4.2/§4.3): required `meta` (non-empty `name`
and `headline`, object `contact`), `summary` of byte length in [80,330],
`snapshot` object, non-empty `experience[]` of objects, `projects[]` of
objects; optional `publications[]` (strings of byte length ≥ 40),
`certifications[]` (objects with a string `name`), `extras[]` (objects with
string `category` and `text`). -/
def validFullResume (d : GoMap) : Bool :=
  (match mget d "meta" with
   | some (Jv.obj m) =>
     (match getStr m "name" with | some n => n ≠ "" | none => false) &&
     (match getStr m "headline" with | some h => h ≠ "" | none => false) &&
     (match mget m "contact" with | some (Jv.obj _) => true | _ => false)
   | _ => false) &&
  (match mget d "summary" with
   | some (Jv.str s) => 80 ≤ goLen s && goLen s ≤ 330
   | _ => false) &&
  (match mget d "snapshot" with | some (Jv.obj _) => true | _ => false) &&
  (match mget d "experience" with
   | some (Jv.arr xs) => !xs.isEmpty && xs.all (fun x => match x with | Jv.obj _ => true | _ => false)
   | _ => false) &&
  (match mget d "projects" with
   | some (Jv.arr xs) => xs.all (fun x => match x with | Jv.obj _ => true | _ => false)
   | _ => false) &&
  (match mget d "publications" with
   | none => true
   | some (Jv.arr xs) => xs.all (fun x => match x with | Jv.str s => 40 ≤ goLen s | _ => false)
   | some _ => false) &&
  (match mget d "certifications" with
   | none => true
   | some (Jv.arr xs) => xs.all (fun x => match x with | Jv.obj kvs => (getStr kvs "name").isSome | _ => false)
   | some _ => false) &&
  (match mget d "extras" with
   | none => true
   | some (Jv.arr xs) => xs.all (fun x => match x with
       | Jv.obj kvs => (getStr kvs "category").isSome && (getStr kvs "text").isSome
       | _ => false)
   | some _ => false)

/-! ## Content Service Client (`server/pkg/ai/client.go`) -/

/-- Error of a retried POST: either the cancellation error of the job's
context (observed during a backoff wait) or the last transport error. -/
inductive RetryErr where
  | ctxCanceled : RetryErr
  | transport (e : String) : RetryErr
deriving Repr, DecidableEq

/-- Result of `Client.doPostWithRetry`: outcome (a received response is
carried opaquely as a `Nat` id — it is returned whatever its status),
the number of HTTP attempts made, and the backoff waits (in seconds)
actually slept. -/
structure RetryResult where
  outcome : Except RetryErr Nat
  attemptsMade : Nat
  waits : List Nat
deriving Repr

/-- The retry loop of `Client.doPostWithRetry`, from attempt `i` with
`remaining` further attempts allowed.  `roundTrip i` is the outcome of the
`i`-th `c.HTTP.Do` (an error only on transport failure); `canceled i` is
whether the context is cancelled during the backoff wait that follows a
failed attempt `i`.  A received response is returned immediately; the
backoff before retry `i+1` is `1<<i` seconds. -/
def retryFrom (roundTrip : Nat → Except String Nat) (canceled : Nat → Bool) :
    Nat → Nat → List Nat → RetryResult
  | i, remaining, waits =>
    match roundTrip i with
    | Except.ok r => { outcome := Except.ok r, attemptsMade := i + 1, waits := waits }
    | Except.error e =>
      match remaining with
      | 0 => { outcome := Except.error (RetryErr.transport e), attemptsMade := i + 1, waits := waits }
      | Nat.succ rem =>
        if canceled i then
          { outcome := Except.error RetryErr.ctxCanceled, attemptsMade := i + 1, waits := waits }
        else retryFrom roundTrip canceled (i + 1) rem (waits ++ [2 ^ i])

/-- `Client.doPostWithRetry` (`attempts = 3`). -/
def doPostWithRetry (roundTrip : Nat → Except String Nat) (canceled : Nat → Bool) :
    RetryResult :=
  retryFrom roundTrip canceled 0 2 []

/-- `'{'` (written via its code point to keep brace characters out of
string/char literals). -/
def lbrace : Char := Char.ofNat 123

/-- `'}'`. -/
def rbrace : Char := Char.ofNat 125

/-- Index of the first `'{'` (Go's forward rune scan with `-1` sentinel,
modelled as `Option Nat`). -/
def scanFirst : List Char → Option Nat
  | [] => none
  | c :: rest => if c = lbrace then some 0 else (scanFirst rest).map (· + 1)

/-- Index of the last `'}'` (Go's backward byte scan with `-1` sentinel,
modelled as `Option Nat`; `'}'` is ASCII, so byte and rune positions
coincide at it). -/
def scanLast : List Char → Option Nat
  | [] => none
  | c :: rest =>
    match scanLast rest with
    | some r => some (r + 1)
    | none => if c = rbrace then some 0 else none

/-- `"ai-service returned non-json content"`. -/
def nonJsonMsg : String := "ai-service returned non-json content"

/-- The tolerant JSON extraction shared by `FormatResume`, `EnrichResume`
and `EnrichFields`: parse the whole output text; on failure re-parse the
slice from the first `'{'` to the last `'}'` when the latter lies after the
former, else fail.  `parse` models `json.Unmarshal` into
`map[string]interface{}`. -/
def parseChatOutput (parse : String → Option GoMap) (s : String) :
    Except String GoMap :=
  match parse s with
  | some m => Except.ok m
  | none =>
    match scanFirst s.data, scanLast s.data with
    | some st, some en =>
      if st < en then
        match parse (String.mk ((s.data.drop st).take (en + 1 - st))) with
        | some m => Except.ok m
        | none => Except.error nonJsonMsg
      else Except.error nonJsonMsg
    | _, _ => Except.error nonJsonMsg

/-! ## Render-and-Persist (`Process`, lines 805–867) -/

/-- The accepted-output check of a render attempt:
`len(pdfBytes) > 0 && strings.HasPrefix(string(pdfBytes), "%PDF")`. -/
def pdfMagicOk (bytes : String) : Bool :=
  bytes ≠ "" && "%PDF".data.isPrefixOf bytes.data

/-- Result of the PDF render retry loop. -/
inductive RenderLoopResult where
  | canceled : RenderLoopResult
  | success (pdf : String) : RenderLoopResult
  | exhausted (lastErr : String) : RenderLoopResult
deriving Repr, DecidableEq

/-- The render retry loop from attempt `i` with `remaining` further
attempts: `render i` models `p.renderer.RenderHTMLToPDF` on attempt `i`,
`canceled i` whether the context is cancelled during the backoff wait after
a failed attempt `i` (in which case `Process` returns `ctx.Err()`). -/
def renderLoopFrom (render : Nat → Except String String) (canceled : Nat → Bool) :
    Nat → Nat → RenderLoopResult
  | i, remaining =>
    match render i with
    | Except.ok bytes =>
      if pdfMagicOk bytes then RenderLoopResult.success bytes
      else
        match remaining with
        | 0 => RenderLoopResult.exhausted "invalid PDF output"
        | Nat.succ rem =>
          if canceled i then RenderLoopResult.canceled
          else renderLoopFrom render canceled (i + 1) rem
    | Except.error e =>
      match remaining with
      | 0 => RenderLoopResult.exhausted e
      | Nat.succ rem =>
        if canceled i then RenderLoopResult.canceled
        else renderLoopFrom render canceled (i + 1) rem

/-- The render retry loop of `Process` (`attempts = 3`). -/
def renderLoop (render : Nat → Except String String) (canceled : Nat → Bool) :
    RenderLoopResult :=
  renderLoopFrom render canceled 0 2

/-- Outcome of the tail of `Process` (render + artifact bookkeeping). -/
structure JobOutcome where
  status : String
  metadata : GoMap
  sharedPdfWritten : Bool
  userPdfWritten : Bool
deriving Repr

/-- The tail of `Process` after the HTML artifact is persisted: runs the
render retry loop and records artifacts and metadata (`ts` is the timestamp
key of the shared artifact names, `userPdfName` the UUID-keyed name of the
per-user copy, `meta0` the job metadata at entry).  File writes and the
final `repo.Save` are external collaborators modelled as succeeding; a
cancellation observed during a render backoff makes `Process` return the
cancellation error. -/
def renderAndPersist (render : Nat → Except String String) (canceled : Nat → Bool)
    (ts userPdfName : String) (meta0 : GoMap) : Except String JobOutcome :=
  let genHtml := "resume-data/generated/resume_" ++ ts ++ ".html"
  let genPdf := "resume-data/generated/resume_" ++ ts ++ ".pdf"
  match renderLoop render canceled with
  | RenderLoopResult.canceled => Except.error "context canceled"
  | RenderLoopResult.success _ =>
    let md := mset meta0 "user_copy" (Jv.str ("resume-data/resumes/" ++ userPdfName))
    let md := mset md "generated_html" (Jv.str genHtml)
    let md := mset md "generated_pdf" (Jv.str genPdf)
    Except.ok { status := "completed", metadata := md,
                sharedPdfWritten := true, userPdfWritten := true }
  | RenderLoopResult.exhausted e =>
    let md := mset meta0 "user_copy" (Jv.str "")
    let md := mset md "pdf_render_error" (Jv.str ("render failed: " ++ e))
    let md := mset md "generated_html" (Jv.str genHtml)
    let md := mset md "generated_pdf" (Jv.str "")
    Except.ok { status := "completed", metadata := md,
                sharedPdfWritten := false, userPdfWritten := false }

/-! ## Map lemmas -/

theorem mget_nil (k : String) : mget [] k = none := rfl

theorem mget_cons (kv : String × Jv) (rest : GoMap) (k' : String) :
    mget (kv :: rest) k' = if kv.1 = k' then some kv.2 else mget rest k' := by
  by_cases h : kv.1 = k'
  · simp [mget, List.find?, h]
  · rw [mget, List.find?, show (kv.1 == k') = false from beq_eq_false_iff_ne.mpr h]
    simp [mget, h]

theorem mget_mset_self (m : GoMap) (k : String) (v : Jv) :
    mget (mset m k v) k = some v := by
  induction m with
  | nil => simp [mset, mget_cons]
  | cons kv rest ih =>
    by_cases h : kv.1 = k
    · simp [mset, h, mget_cons]
    · simp [mset, h, mget_cons, ih]

theorem mget_mset_ne (m : GoMap) (k k' : String) (v : Jv) (h : k' ≠ k) :
    mget (mset m k v) k' = mget m k' := by
  induction m with
  | nil => simp [mset, mget_cons, mget_nil, Ne.symm h]
  | cons kv rest ih =>
    by_cases hk : kv.1 = k
    · subst hk
      simp [mset, mget_cons, Ne.symm h]
    · simp [mset, hk, mget_cons, ih]

/-! ## Claim C10 -/

/-- C10: a certification supplied as a JSON object without a string `name`
field is normalized to a certification whose name is the empty string — it
is neither stringified nor rejected, so it survives normalization as the
single resulting item, with `name = ""`. -/
theorem c10_cert_object_without_name_keeps_empty_name (year : Nat) (kvs : GoMap)
    (h : getStr kvs "name" = none) :
    (NewOverridesFromMap year
        (some [("certifications", Jv.arr [Jv.obj kvs])])).certifications.map
      Certification.name = [""] := by
  simp [NewOverridesFromMap, normalizeCerts, mget_cons, normalizeCertItem, h]

theorem c10_cert_object_without_name_keeps_empty_name_witness :
    getStr [("issuer", Jv.str "X")] "name" = none ∧
    (NewOverridesFromMap 2026
        (some [("certifications", Jv.arr [Jv.obj [("issuer", Jv.str "X")]])])).certifications.map
      Certification.name = [""] :=
  ⟨rfl, c10_cert_object_without_name_keeps_empty_name 2026 [("issuer", Jv.str "X")] rfl⟩

/-! ## Claim C3 -/

/-- The publication item `p` was produced by the title branch of the
normalizer: some array item is an object with a non-empty string `title`,
and `p` is that title, or `title — outline` when a non-empty string
`outline` is also present.  These items bypass `formatPub`. -/
def fromTitlePath (m : GoMap) (p : String) : Prop :=
  ∃ items, mget m "publications" = some (Jv.arr items) ∧
    ∃ kvs t, Jv.obj kvs ∈ items ∧ getStr kvs "title" = some t ∧ t ≠ "" ∧
      (p = t ∨ ∃ o, getStr kvs "outline" = some o ∧ o ≠ "" ∧ p = t ++ " — " ++ o)

theorem goLen_pubSuffix (year : Nat) : 40 ≤ goLen (pubSuffix year) := by
  have h40 : 40 ≤ goLen ". A published article describing architecture, performance improvements, and key takeaways." := by decide
  have := goLen_append (" — " ++ toString year)
    ". A published article describing architecture, performance improvements, and key takeaways."
  unfold pubSuffix
  omega

theorem goLen_formatPub (year : Nat) (s : String) : 40 ≤ goLen (formatPub year s) := by
  unfold formatPub
  by_cases h : 40 ≤ goLen (trimSpace s)
  · simp [h]
  · have h1 := goLen_append (trimSpace s) (pubSuffix year)
    have h2 := goLen_pubSuffix year
    simp [h]
    omega

/-- C3 counterexample: a publication arriving as an object with a short
non-empty `title` is emitted verbatim, below the 40-byte minimum
descriptive length. -/
theorem c3_counterexample :
    (NewOverridesFromMap 2026
        (some [("publications", Jv.arr [Jv.obj [("title", Jv.str "A")]])])).publications
      = ["A"] ∧ goLen "A" < 40 :=
  ⟨rfl, by decide⟩

theorem goLen_pubFromOutline (year : Nat) (kvs : GoMap) :
    40 ≤ goLen (pubFromOutline year kvs) := by
  unfold pubFromOutline
  split
  · split
    · exact goLen_formatPub _ _
    · exact goLen_formatPub _ _
  · exact goLen_formatPub _ _

theorem normalizePubItem_spec (year : Nat) (v : Jv) :
    40 ≤ goLen (normalizePubItem year v) ∨
    ∃ kvs t, v = Jv.obj kvs ∧ getStr kvs "title" = some t ∧ t ≠ "" ∧
      (normalizePubItem year v = t ∨
       ∃ o, getStr kvs "outline" = some o ∧ o ≠ "" ∧
         normalizePubItem year v = t ++ " — " ++ o) := by
  cases v with
  | null => exact Or.inl (goLen_formatPub _ _)
  | boolv b => exact Or.inl (goLen_formatPub _ _)
  | num n => exact Or.inl (goLen_formatPub _ _)
  | str s => exact Or.inl (goLen_formatPub _ _)
  | arr xs => exact Or.inl (goLen_formatPub _ _)
  | obj kvs =>
    rcases ht : getStr kvs "title" with _ | t
    · have hval : normalizePubItem year (Jv.obj kvs) = pubFromOutline year kvs := by
        simp only [normalizePubItem, ht]
      rw [hval]; exact Or.inl (goLen_pubFromOutline _ _)
    · by_cases hte : t ≠ ""
      · rcases ho : getStr kvs "outline" with _ | o
        · have hval : normalizePubItem year (Jv.obj kvs) = t := by
            simp only [normalizePubItem, ht, if_pos hte, ho]
          rw [hval]; exact Or.inr ⟨kvs, t, rfl, ht, hte, Or.inl rfl⟩
        · by_cases hoe : o ≠ ""
          · have hval : normalizePubItem year (Jv.obj kvs) = t ++ " — " ++ o := by
              simp only [normalizePubItem, ht, if_pos hte, ho, if_pos hoe]
            rw [hval]; exact Or.inr ⟨kvs, t, rfl, ht, hte, Or.inr ⟨o, ho, hoe, rfl⟩⟩
          · have hval : normalizePubItem year (Jv.obj kvs) = t := by
              simp only [normalizePubItem, ht, if_pos hte, ho, if_neg hoe]
            rw [hval]; exact Or.inr ⟨kvs, t, rfl, ht, hte, Or.inl rfl⟩
      · have hval : normalizePubItem year (Jv.obj kvs) = pubFromOutline year kvs := by
          simp only [normalizePubItem, ht, if_neg hte]
        rw [hval]; exact Or.inl (goLen_pubFromOutline _ _)

/-- C3 amended: every publication item in the Normalizer's output either
meets the 40-byte minimum descriptive length (all string, outline-only and
stringified shapes are expanded by `formatPub`) or was produced from an
array item that is an object with a non-empty `title`, which is passed
through unexpanded and may be arbitrarily short. -/
theorem c3_amended_publications_min_length_except_title
    (year : Nat) (m : GoMap) (p : String)
    (hp : p ∈ (NewOverridesFromMap year (some m)).publications) :
    40 ≤ goLen p ∨ fromTitlePath m p := by
  simp only [NewOverridesFromMap, normalizePubs] at hp
  rcases hmp : mget m "publications" with _ | v
  · rw [hmp] at hp; simp at hp
  · rw [hmp] at hp
    cases v with
    | null => simp at hp; subst hp; exact Or.inl (goLen_formatPub _ _)
    | boolv b => simp at hp; subst hp; exact Or.inl (goLen_formatPub _ _)
    | num n => simp at hp; subst hp; exact Or.inl (goLen_formatPub _ _)
    | str s => simp at hp; subst hp; exact Or.inl (goLen_formatPub _ _)
    | obj kvs => simp at hp; subst hp; exact Or.inl (goLen_formatPub _ _)
    | arr items =>
      simp only [List.mem_map] at hp
      obtain ⟨v, hv, rfl⟩ := hp
      rcases normalizePubItem_spec year v with h | ⟨kvs, t, rfl, ht, hte, hcase⟩
      · exact Or.inl h
      · exact Or.inr ⟨items, hmp, kvs, t, hv, ht, hte, hcase⟩

theorem c3_amended_publications_min_length_except_title_witness :
    ("Short — 2026. A published article describing architecture, performance improvements, and key takeaways."
        ∈ (NewOverridesFromMap 2026 (some [("publications", Jv.str "Short")])).publications) ∧
    (40 ≤ goLen "Short — 2026. A published article describing architecture, performance improvements, and key takeaways."
        ∨ fromTitlePath [("publications", Jv.str "Short")]
            "Short — 2026. A published article describing architecture, performance improvements, and key takeaways.") := by
  have hm : (NewOverridesFromMap 2026 (some [("publications", Jv.str "Short")])).publications
      = ["Short — 2026. A published article describing architecture, performance improvements, and key takeaways."] := rfl
  have hmem : "Short — 2026. A published article describing architecture, performance improvements, and key takeaways."
      ∈ (NewOverridesFromMap 2026 (some [("publications", Jv.str "Short")])).publications := by
    rw [hm]; exact List.mem_singleton.mpr rfl
  exact ⟨hmem, c3_amended_publications_min_length_except_title 2026 _ _ hmem⟩

/-! ## Claim C4 -/

/-- Well-typedness of a round-tripped overrides map: `publications` (when
present) is an array of strings, `certifications` an array of objects
carrying a string `name`, and `extras` an array of objects carrying string
`category` and `text` fields. -/
def wellTypedOverridesMap (out : GoMap) : Bool :=
  (match mget out "publications" with
   | none => true
   | some (Jv.arr xs) => xs.all (fun x => match x with | Jv.str _ => true | _ => false)
   | some _ => false) &&
  (match mget out "certifications" with
   | none => true
   | some (Jv.arr xs) => xs.all (fun x => match x with
       | Jv.obj kvs => (getStr kvs "name").isSome
       | _ => false)
   | some _ => false) &&
  (match mget out "extras" with
   | none => true
   | some (Jv.arr xs) => xs.all (fun x => match x with
       | Jv.obj kvs => (getStr kvs "category").isSome && (getStr kvs "text").isSome
       | _ => false)
   | some _ => false)

theorem mget_foldl_other (other base : GoMap) (key : String)
    (h : ∀ kv ∈ other, kv.1 ≠ key) :
    mget (other.foldl (fun acc kv => if mhas acc kv.1 then acc else mset acc kv.1 kv.2) base) key
      = mget base key := by
  induction other generalizing base with
  | nil => rfl
  | cons kv rest ih =>
    simp only [List.foldl_cons]
    rw [ih _ (fun x hx => h x (List.mem_cons_of_mem _ hx))]
    by_cases hc : mhas base kv.1
    · simp [hc]
    · simp [hc, mget_mset_ne _ _ _ _ (Ne.symm (h kv (List.mem_cons_self _ _)))]

theorem mget_toMapBase_pubs (o : Overrides) :
    mget (toMapBase o) "publications" =
      if o.publications.length > 0 then some (Jv.arr (o.publications.map Jv.str)) else none := by
  have hne1 : ∀ (mm : GoMap) v, mget (mset mm "certifications" v) "publications" = mget mm "publications" :=
    fun mm v => mget_mset_ne mm _ _ v (by decide)
  have hne2 : ∀ (mm : GoMap) v, mget (mset mm "extras" v) "publications" = mget mm "publications" :=
    fun mm v => mget_mset_ne mm _ _ v (by decide)
  unfold toMapBase
  by_cases h1 : o.publications.length > 0 <;>
    by_cases h2 : o.certifications.length > 0 <;>
      by_cases h3 : o.extras.length > 0 <;>
        simp [h1, h2, h3, hne1, hne2, mget_mset_self, mget_nil]

theorem mget_toMapBase_certs (o : Overrides) :
    mget (toMapBase o) "certifications" =
      if o.certifications.length > 0 then
        some (Jv.arr (o.certifications.map (fun c => Jv.obj (certToMap c)))) else none := by
  have hne1 : ∀ (mm : GoMap) v, mget (mset mm "publications" v) "certifications" = mget mm "certifications" :=
    fun mm v => mget_mset_ne mm _ _ v (by decide)
  have hne2 : ∀ (mm : GoMap) v, mget (mset mm "extras" v) "certifications" = mget mm "certifications" :=
    fun mm v => mget_mset_ne mm _ _ v (by decide)
  unfold toMapBase
  by_cases h1 : o.publications.length > 0 <;>
    by_cases h2 : o.certifications.length > 0 <;>
      by_cases h3 : o.extras.length > 0 <;>
        simp [h1, h2, h3, hne1, hne2, mget_mset_self, mget_nil]

theorem mget_toMapBase_extras (o : Overrides) :
    mget (toMapBase o) "extras" =
      if o.extras.length > 0 then
        some (Jv.arr (o.extras.map (fun e =>
          Jv.obj [("category", Jv.str e.category), ("text", Jv.str e.text)]))) else none := by
  have hne1 : ∀ (mm : GoMap) v, mget (mset mm "publications" v) "extras" = mget mm "extras" :=
    fun mm v => mget_mset_ne mm _ _ v (by decide)
  have hne2 : ∀ (mm : GoMap) v, mget (mset mm "certifications" v) "extras" = mget mm "extras" :=
    fun mm v => mget_mset_ne mm _ _ v (by decide)
  unfold toMapBase
  by_cases h1 : o.publications.length > 0 <;>
    by_cases h2 : o.certifications.length > 0 <;>
      by_cases h3 : o.extras.length > 0 <;>
        simp [h1, h2, h3, hne1, hne2, mget_mset_self, mget_nil]

theorem mget_certToMap_name (c : Certification) :
    mget (certToMap c) "name" = some (Jv.str c.name) := by
  have h1 : ∀ (mm : GoMap) v, mget (mset mm "issuer" v) "name" = mget mm "name" :=
    fun mm v => mget_mset_ne mm _ _ v (by decide)
  have h2 : ∀ (mm : GoMap) v, mget (mset mm "date" v) "name" = mget mm "name" :=
    fun mm v => mget_mset_ne mm _ _ v (by decide)
  have h3 : ∀ (mm : GoMap) v, mget (mset mm "url" v) "name" = mget mm "name" :=
    fun mm v => mget_mset_ne mm _ _ v (by decide)
  have h4 : ∀ (mm : GoMap) v, mget (mset mm "description" v) "name" = mget mm "name" :=
    fun mm v => mget_mset_ne mm _ _ v (by decide)
  unfold certToMap
  split <;> split <;> split <;> split <;> simp [h1, h2, h3, h4, mget_cons]

theorem wellTyped_toMap_of_other_free (o : Overrides)
    (h : ∀ kv ∈ o.other,
      kv.1 ≠ "publications" ∧ kv.1 ≠ "certifications" ∧ kv.1 ≠ "extras") :
    wellTypedOverridesMap o.ToMap = true := by
  unfold wellTypedOverridesMap Overrides.ToMap
  rw [Bool.and_eq_true, Bool.and_eq_true]
  refine ⟨⟨?_, ?_⟩, ?_⟩
  · rw [mget_foldl_other _ _ _ (fun kv hkv => (h kv hkv).1), mget_toMapBase_pubs]
    by_cases h1 : o.publications.length > 0 <;> simp [h1, List.all_map, Function.comp]
  · rw [mget_foldl_other _ _ _ (fun kv hkv => (h kv hkv).2.1), mget_toMapBase_certs]
    by_cases h1 : o.certifications.length > 0 <;>
      simp [h1, List.all_map, Function.comp, getStr, mget_certToMap_name]
  · rw [mget_foldl_other _ _ _ (fun kv hkv => (h kv hkv).2.2), mget_toMapBase_extras]
    by_cases h1 : o.extras.length > 0 <;>
      simp [h1, List.all_map, Function.comp, getStr, mget_cons]

/-- C4: the Override Normalizer is total — it is a plain function defined
on every input (including `nil`), and the round trip
`ToMap (NewOverridesFromMap input)` always yields a map whose
`publications` entries are all strings, whose `certifications` entries are
all objects with a `name` field, and whose `extras` entries are all objects
with `category` and `text` fields. -/
theorem c4_normalizer_total_roundtrip_well_typed (year : Nat) (m? : Option GoMap) :
    wellTypedOverridesMap ((NewOverridesFromMap year m?).ToMap) = true := by
  apply wellTyped_toMap_of_other_free
  intro kv hkv
  cases m? with
  | none => simp [NewOverridesFromMap] at hkv
  | some m =>
    simp only [NewOverridesFromMap] at hkv
    have := List.mem_filter.mp hkv
    simpa using this.2

/-! ## Claim C2 -/

/-- C2: Stage-3 (Showcase) enrichment is scoped.  Whatever the
content-service oracle returns and whatever the validation state, the whole
`Stage3Enrich` operation writes only the keys `projects`, `publications`
and `certifications` into the working document: every other key — in
particular `meta` and `experience` — is unchanged. -/
theorem c2_stage3_enrich_scoped (schemaOk : GoMap → Bool)
    (fmtRes enrichRes : Option GoMap) (validation : StageValidationResult)
    (rm : GoMap) (k : String)
    (hk1 : k ≠ "projects") (hk2 : k ≠ "publications") (hk3 : k ≠ "certifications") :
    mget (Stage3Enrich schemaOk fmtRes enrichRes validation rm).1 k = mget rm k := by
  have step : ∀ (out2 acc : GoMap) (key : String), key ≠ k →
      mget (match mget out2 key with
            | some v => mset acc key v
            | none => acc) k = mget acc k := by
    intro out2 acc key hne
    cases mget out2 key with
    | none => rfl
    | some v => exact mget_mset_ne _ _ _ _ (Ne.symm hne)
  unfold Stage3Enrich
  rcases hv : validation.valid
  · simp only [hv, Bool.false_eq_true, if_false]
    cases fmtRes with
    | none => rfl
    | some out =>
      rcases hs : schemaOk out
      · simp only [hs, Bool.false_eq_true, if_false]
        cases enrichRes with
        | none => rfl
        | some out2 =>
          simp only [List.foldl_cons, List.foldl_nil]
          rcases (Stage3Validator _).valid <;>
            simp only [Bool.false_eq_true, if_false, if_true] <;>
            rw [step _ _ "certifications" (Ne.symm hk3),
                step _ _ "publications" (Ne.symm hk2),
                step _ _ "projects" (Ne.symm hk1)]
      · simp only [hs, if_true]
        simp only [List.foldl_cons, List.foldl_nil]
        rcases (Stage3Validator _).valid <;>
          simp only [Bool.false_eq_true, if_false, if_true] <;>
          rw [step _ _ "certifications" (Ne.symm hk3),
              step _ _ "publications" (Ne.symm hk2),
              step _ _ "projects" (Ne.symm hk1)]
  · simp [hv]

theorem c2_stage3_enrich_scoped_witness :
    mget (Stage3Enrich (fun _ => true)
        (some [("projects", Jv.arr [Jv.obj []]),
               ("meta", Jv.obj [("name", Jv.str "intruder")])])
        none
        { valid := false, missing := ["projects"], partialMap := [] }
        [("meta", Jv.obj [("name", Jv.str "Ada")]),
         ("experience", Jv.arr [Jv.obj []])]).1 "meta"
      = some (Jv.obj [("name", Jv.str "Ada")]) := by
  rw [c2_stage3_enrich_scoped (fun _ => true) _ _ _ _ "meta"
      (by decide) (by decide) (by decide)]
  rfl

/-! ## Claim C9 -/

/-- A summary string of byte length 250 (inside [80,330], outside
[80,220]). -/
def s250 : String := String.mk (List.replicate 250 'a')

/-- C9 counterexample: a candidate summary of length 250 is accepted by
`Stage4Validator` (bounds [80,330]) but the stage-D merge in `Process`
refuses it (bounds [80,220]) and leaves the document's summary unset. -/
theorem c9_counterexample :
    80 ≤ goLen s250 ∧ goLen s250 ≤ 330 ∧
    (Stage4Validator [("summary", Jv.str s250), ("extras", Jv.arr [Jv.num 1])]).valid = true ∧
    (mget (summaryMetaMerge [("summary", Jv.str s250)] []) "summary").isSome = false :=
  ⟨by decide, by decide, rfl, rfl⟩

/-- C9 amended: `Stage4Validator` accepts a summary exactly when it is a
string of byte length in [80,330]; the stage-D merge in `Process` merges a
candidate string summary exactly when its byte length is in [80,220]
(narrower than the validator's interval) and otherwise leaves the existing
summary unchanged. -/
theorem mget_stage4ExtrasCheck_summary (rm : GoMap) (r : StageValidationResult) :
    mget (stage4ExtrasCheck rm r).partialMap "summary" = mget r.partialMap "summary" := by
  have hne : ∀ (mm : GoMap) v, mget (mset mm "extras" v) "summary" = mget mm "summary" :=
    fun mm v => mget_mset_ne mm _ _ v (by decide)
  unfold stage4ExtrasCheck
  rcases mget rm "extras" with _ | w
  · rfl
  · cases w with
    | arr xs => cases xs with
      | nil => rfl
      | cons x tl => exact hne _ _
    | null => rfl
    | boolv b => rfl
    | num n => rfl
    | str s => rfl
    | obj kvs => rfl

theorem mget_stage4SummaryCheck_empty (rm : GoMap) :
    mget (stage4SummaryCheck rm { valid := true, missing := [], partialMap := [] }).partialMap
      "summary" =
    (match mget rm "summary" with
     | some (Jv.str s) =>
       if s = "" ∨ goLen s < 80 ∨ goLen s > 330 then none else some (Jv.str s)
     | _ => none) := by
  rcases hsum : mget rm "summary" with _ | v
  · simp [stage4SummaryCheck, hsum, mget_nil]
  · cases v with
    | str s =>
      by_cases hbad : s = "" ∨ goLen s < 80 ∨ goLen s > 330 <;>
        simp [stage4SummaryCheck, hsum, hbad, mget_mset_self, mget_nil]
    | null => simp [stage4SummaryCheck, hsum, mget_nil]
    | boolv b => simp [stage4SummaryCheck, hsum, mget_nil]
    | num n => simp [stage4SummaryCheck, hsum, mget_nil]
    | arr xs => simp [stage4SummaryCheck, hsum, mget_nil]
    | obj kvs => simp [stage4SummaryCheck, hsum, mget_nil]

theorem mget_metaMergeStep_summary (out rm1 : GoMap) :
    mget (metaMergeStep out rm1) "summary" = mget rm1 "summary" := by
  have hne : ∀ (mm : GoMap) v, mget (mset mm "meta" v) "summary" = mget mm "summary" :=
    fun mm v => mget_mset_ne mm _ _ v (by decide)
  unfold metaMergeStep
  rcases mget out "meta" with _ | w
  · rfl
  · cases w with
    | obj kvs => exact hne _ _
    | null => rfl
    | boolv b => rfl
    | num n => rfl
    | str s => rfl
    | arr xs => rfl

theorem c9_amended_summary_bounds (rm out : GoMap) :
    ((mget (Stage4Validator rm).partialMap "summary").isSome = true ↔
      ∃ s, mget rm "summary" = some (Jv.str s) ∧ 80 ≤ goLen s ∧ goLen s ≤ 330) ∧
    (∀ s, mget out "summary" = some (Jv.str s) →
      mget (summaryMetaMerge out rm) "summary" =
        if 80 ≤ goLen s ∧ goLen s ≤ 220 then some (Jv.str s) else mget rm "summary") ∧
    (mget out "summary" = none →
      mget (summaryMetaMerge out rm) "summary" = mget rm "summary") := by
  refine ⟨?_, ?_, ?_⟩
  · rw [Stage4Validator, mget_stage4ExtrasCheck_summary, mget_stage4SummaryCheck_empty]
    rcases hsum : mget rm "summary" with _ | v
    · simp
    · cases v with
      | str s =>
        by_cases hbad : s = "" ∨ goLen s < 80 ∨ goLen s > 330
        · simp only [hbad, if_true, Option.isSome_none, Bool.false_eq_true, false_iff]
          rintro ⟨s', hs', h80, h330⟩
          cases Option.some.inj hs'
          rcases hbad with h | h | h
          · subst h; simp [goLen, utf8Len] at h80
          · omega
          · omega
        · simp only [hbad, if_false, Option.isSome_some, true_iff]
          push_neg at hbad
          exact ⟨s, rfl, by omega, by omega⟩
      | null => simp
      | boolv b => simp
      | num n => simp
      | arr xs => simp
      | obj kvs => simp
  · intro s hs
    rw [summaryMetaMerge, mget_metaMergeStep_summary]
    by_cases hgood : 80 ≤ goLen s ∧ goLen s ≤ 220
    · have hcond : ¬(goLen s < 80 ∨ goLen s > 220) := by omega
      simp [summaryMergeStep, hs, hcond, hgood, mget_mset_self]
    · have hcond : goLen s < 80 ∨ goLen s > 220 := by
        rcases Nat.lt_or_ge (goLen s) 80 with h | h
        · exact Or.inl h
        · right; omega
      simp [summaryMergeStep, hs, hcond, hgood]
  · intro hs
    rw [summaryMetaMerge, mget_metaMergeStep_summary]
    simp [summaryMergeStep, hs]

/-- A summary string of byte length 100 (inside both intervals). -/
def s100 : String := String.mk (List.replicate 100 'a')

theorem c9_amended_summary_bounds_witness :
    mget (summaryMetaMerge [("summary", Jv.str s100)] []) "summary" =
      if 80 ≤ goLen s100 ∧ goLen s100 ≤ 220 then some (Jv.str s100)
      else mget ([] : GoMap) "summary" :=
  (c9_amended_summary_bounds [] [("summary", Jv.str s100)]).2.1 s100 rfl

/-! ## Claim C6 -/

/-- C6: the retry discipline of `Client.doPostWithRetry`.  At most 3 HTTP
attempts are made; a received response is returned immediately whatever its
status (no retry ever follows a received response); the backoff waits are
1s after the first failed attempt and 2s after the second; exhaustion
returns the last transport error; and a context cancellation observed
during a backoff wait returns the cancellation error immediately instead of
a retry-exhausted error. -/
theorem c6_retry_discipline (rt : Nat → Except String Nat) (c : Nat → Bool) :
    (doPostWithRetry rt c).attemptsMade ≤ 3 ∧
    (∀ r, rt 0 = Except.ok r →
       doPostWithRetry rt c = ⟨Except.ok r, 1, []⟩) ∧
    (∀ e0 r, rt 0 = Except.error e0 → c 0 = false → rt 1 = Except.ok r →
       doPostWithRetry rt c = ⟨Except.ok r, 2, [1]⟩) ∧
    (∀ e0 e1 r, rt 0 = Except.error e0 → c 0 = false → rt 1 = Except.error e1 →
       c 1 = false → rt 2 = Except.ok r →
       doPostWithRetry rt c = ⟨Except.ok r, 3, [1, 2]⟩) ∧
    (∀ e0 e1 e2, rt 0 = Except.error e0 → c 0 = false → rt 1 = Except.error e1 →
       c 1 = false → rt 2 = Except.error e2 →
       doPostWithRetry rt c = ⟨Except.error (RetryErr.transport e2), 3, [1, 2]⟩) ∧
    (∀ e0, rt 0 = Except.error e0 → c 0 = true →
       doPostWithRetry rt c = ⟨Except.error RetryErr.ctxCanceled, 1, []⟩) ∧
    (∀ e0 e1, rt 0 = Except.error e0 → c 0 = false → rt 1 = Except.error e1 → c 1 = true →
       doPostWithRetry rt c = ⟨Except.error RetryErr.ctxCanceled, 2, [1]⟩) := by
  refine ⟨?_, ?_, ?_, ?_, ?_, ?_, ?_⟩
  · rcases h0 : rt 0 with e0 | r0
    · rcases hc0 : c 0
      · rcases h1 : rt 1 with e1 | r1
        · rcases hc1 : c 1
          · rcases h2 : rt 2 with e2 | r2 <;>
              simp [doPostWithRetry, retryFrom, h0, hc0, h1, hc1, h2]
          · simp [doPostWithRetry, retryFrom, h0, hc0, h1, hc1]
        · simp [doPostWithRetry, retryFrom, h0, hc0, h1]
      · simp [doPostWithRetry, retryFrom, h0, hc0]
    · simp [doPostWithRetry, retryFrom, h0]
  · intro r h0
    simp [doPostWithRetry, retryFrom, h0]
  · intro e0 r h0 hc0 h1
    simp [doPostWithRetry, retryFrom, h0, hc0, h1]
  · intro e0 e1 r h0 hc0 h1 hc1 h2
    simp [doPostWithRetry, retryFrom, h0, hc0, h1, hc1, h2]
  · intro e0 e1 e2 h0 hc0 h1 hc1 h2
    simp [doPostWithRetry, retryFrom, h0, hc0, h1, hc1, h2]
  · intro e0 h0 hc0
    simp [doPostWithRetry, retryFrom, h0, hc0]
  · intro e0 e1 h0 hc0 h1 hc1
    simp [doPostWithRetry, retryFrom, h0, hc0, h1, hc1]

/-- A round-trip oracle that fails on the first attempt and then yields a
response. -/
def c6RoundTrip : Nat → Except String Nat :=
  fun i => if i = 0 then Except.error "connection refused" else Except.ok 7

/-- A context that is never cancelled. -/
def c6NoCancel : Nat → Bool := fun _ => false

theorem c6_retry_discipline_witness :
    doPostWithRetry c6RoundTrip c6NoCancel = ⟨Except.ok 7, 2, [1]⟩ :=
  (c6_retry_discipline c6RoundTrip c6NoCancel).2.2.1 "connection refused" 7 rfl rfl rfl

/-! ## Claim C8 -/

theorem renderLoop_exhausted_of_allFail (render : Nat → Except String String)
    (canceled : Nat → Bool)
    (hf : ∀ i, i < 3 → ∀ b, render i = Except.ok b → pdfMagicOk b = false)
    (hc : ∀ i, canceled i = false) :
    ∃ e, renderLoop render canceled = RenderLoopResult.exhausted e := by
  have hc0 := hc 0
  have hc1 := hc 1
  rcases h0 : render 0 with e0 | b0
  · rcases h1 : render 1 with e1 | b1
    · rcases h2 : render 2 with e2 | b2
      · exact ⟨e2, by simp [renderLoop, renderLoopFrom, h0, h1, h2, hc0, hc1]⟩
      · have hb2 := hf 2 (by omega) b2 h2
        exact ⟨"invalid PDF output",
          by simp [renderLoop, renderLoopFrom, h0, h1, h2, hb2, hc0, hc1]⟩
    · have hb1 := hf 1 (by omega) b1 h1
      rcases h2 : render 2 with e2 | b2
      · exact ⟨e2, by simp [renderLoop, renderLoopFrom, h0, h1, h2, hb1, hc0, hc1]⟩
      · have hb2 := hf 2 (by omega) b2 h2
        exact ⟨"invalid PDF output",
          by simp [renderLoop, renderLoopFrom, h0, h1, h2, hb1, hb2, hc0, hc1]⟩
  · have hb0 := hf 0 (by omega) b0 h0
    rcases h1 : render 1 with e1 | b1
    · rcases h2 : render 2 with e2 | b2
      · exact ⟨e2, by simp [renderLoop, renderLoopFrom, h0, h1, h2, hb0, hc0, hc1]⟩
      · have hb2 := hf 2 (by omega) b2 h2
        exact ⟨"invalid PDF output",
          by simp [renderLoop, renderLoopFrom, h0, h1, h2, hb0, hb2, hc0, hc1]⟩
    · have hb1 := hf 1 (by omega) b1 h1
      rcases h2 : render 2 with e2 | b2
      · exact ⟨e2, by simp [renderLoop, renderLoopFrom, h0, h1, h2, hb0, hb1, hc0, hc1]⟩
      · have hb2 := hf 2 (by omega) b2 h2
        exact ⟨"invalid PDF output",
          by simp [renderLoop, renderLoopFrom, h0, h1, h2, hb0, hb1, hb2, hc0, hc1]⟩

theorem renderLoop_success_third (render : Nat → Except String String)
    (canceled : Nat → Bool) (b : String)
    (hf : ∀ i, i < 2 → ∀ b', render i = Except.ok b' → pdfMagicOk b' = false)
    (hc : ∀ i, canceled i = false)
    (h2 : render 2 = Except.ok b) (hm : pdfMagicOk b = true) :
    renderLoop render canceled = RenderLoopResult.success b := by
  have hc0 := hc 0
  have hc1 := hc 1
  rcases h0 : render 0 with e0 | b0
  · rcases h1 : render 1 with e1 | b1
    · simp [renderLoop, renderLoopFrom, h0, h1, h2, hm, hc0, hc1]
    · have hb1 := hf 1 (by omega) b1 h1
      simp [renderLoop, renderLoopFrom, h0, h1, h2, hb1, hm, hc0, hc1]
  · have hb0 := hf 0 (by omega) b0 h0
    rcases h1 : render 1 with e1 | b1
    · simp [renderLoop, renderLoopFrom, h0, h1, h2, hb0, hm, hc0, hc1]
    · have hb1 := hf 1 (by omega) b1 h1
      simp [renderLoop, renderLoopFrom, h0, h1, h2, hb0, hb1, hm, hc0, hc1]

/-- C8: PDF render exhaustion is non-fatal with a defined outcome.  When
all 3 attempts fail (renderer error or output without the `%PDF` magic) and
the context is never cancelled, the job still completes: status
`"completed"`, `generated_html` set to the non-empty persisted HTML path,
`generated_pdf` empty, `pdf_render_error` set, and no PDF artifact or
per-user copy written.  When the 3rd attempt yields a valid `%PDF` payload,
no render error is recorded and the PDF path is set. -/
theorem c8_pdf_render_exhaustion_nonfatal (render : Nat → Except String String)
    (canceled : Nat → Bool) (ts upn : String) (meta0 : GoMap)
    (hmeta : mget meta0 "pdf_render_error" = none) :
    ((∀ i, i < 3 → ∀ b, render i = Except.ok b → pdfMagicOk b = false) →
     (∀ i, canceled i = false) →
     ∃ o, renderAndPersist render canceled ts upn meta0 = Except.ok o ∧
       o.status = "completed" ∧
       mget o.metadata "generated_pdf" = some (Jv.str "") ∧
       (mget o.metadata "pdf_render_error").isSome = true ∧
       mget o.metadata "generated_html"
         = some (Jv.str ("resume-data/generated/resume_" ++ ts ++ ".html")) ∧
       "resume-data/generated/resume_" ++ ts ++ ".html" ≠ "" ∧
       o.userPdfWritten = false ∧ o.sharedPdfWritten = false) ∧
    (∀ b, (∀ i, i < 2 → ∀ b', render i = Except.ok b' → pdfMagicOk b' = false) →
       (∀ i, canceled i = false) → render 2 = Except.ok b → pdfMagicOk b = true →
       ∃ o, renderAndPersist render canceled ts upn meta0 = Except.ok o ∧
         o.status = "completed" ∧
         mget o.metadata "pdf_render_error" = none ∧
         mget o.metadata "generated_pdf"
           = some (Jv.str ("resume-data/generated/resume_" ++ ts ++ ".pdf"))) := by
  have hne_gp_pre : ∀ (mm : GoMap) v, mget (mset mm "generated_pdf" v) "pdf_render_error"
      = mget mm "pdf_render_error" := fun mm v => mget_mset_ne mm _ _ v (by decide)
  have hne_gh_pre : ∀ (mm : GoMap) v, mget (mset mm "generated_html" v) "pdf_render_error"
      = mget mm "pdf_render_error" := fun mm v => mget_mset_ne mm _ _ v (by decide)
  have hne_uc_pre : ∀ (mm : GoMap) v, mget (mset mm "user_copy" v) "pdf_render_error"
      = mget mm "pdf_render_error" := fun mm v => mget_mset_ne mm _ _ v (by decide)
  have hne_gp_gh : ∀ (mm : GoMap) v, mget (mset mm "generated_pdf" v) "generated_html"
      = mget mm "generated_html" := fun mm v => mget_mset_ne mm _ _ v (by decide)
  constructor
  · intro hf hc
    obtain ⟨e, he⟩ := renderLoop_exhausted_of_allFail render canceled hf hc
    refine ⟨_, by rw [renderAndPersist, he], rfl, ?_, ?_, ?_, ?_, rfl, rfl⟩
    · exact mget_mset_self _ _ _
    · rw [hne_gp_pre, hne_gh_pre, mget_mset_self]
      rfl
    · rw [mget_mset_ne _ _ _ _ (by decide), mget_mset_self]
    · intro hcontra
      have : ("resume-data/generated/resume_" ++ ts ++ ".html").data = [] := by
        rw [hcontra]
      have h2 : ("resume-data/generated/resume_" ++ ts ++ ".html").data
          = "resume-data/generated/resume_".data ++ ts.data ++ ".html".data := by
        simp [String.data_append]
      rw [h2] at this
      simp at this
  · intro b hf hc h2 hm
    have hs := renderLoop_success_third render canceled b hf hc h2 hm
    refine ⟨_, by rw [renderAndPersist, hs], rfl, ?_, ?_⟩
    · rw [hne_gp_pre, hne_gh_pre, hne_uc_pre]
      exact hmeta
    · exact mget_mset_self _ _ _

/-- A renderer that always yields a payload without the PDF magic bytes. -/
def c8BadRenderer : Nat → Except String String := fun _ => Except.ok "HTML!"

/-- A render context that is never cancelled. -/
def c8NoCancel : Nat → Bool := fun _ => false

theorem c8_pdf_render_exhaustion_nonfatal_witness :
    ∃ o, renderAndPersist c8BadRenderer c8NoCancel "20250101T000000" "u.pdf" []
        = Except.ok o ∧
      o.status = "completed" ∧
      mget o.metadata "generated_pdf" = some (Jv.str "") ∧
      (mget o.metadata "pdf_render_error").isSome = true ∧
      mget o.metadata "generated_html"
        = some (Jv.str ("resume-data/generated/resume_" ++ "20250101T000000" ++ ".html")) ∧
      "resume-data/generated/resume_" ++ "20250101T000000" ++ ".html" ≠ "" ∧
      o.userPdfWritten = false ∧ o.sharedPdfWritten = false :=
  (c8_pdf_render_exhaustion_nonfatal c8BadRenderer c8NoCancel "20250101T000000" "u.pdf" []
      rfl).1
    (fun i _ b hb => by cases hb; rfl)
    (fun _ => rfl)

/-! ## Claim C7 -/

theorem scanFirst_append (pre rest : List Char) (hpre : lbrace ∉ pre) :
    scanFirst (pre ++ lbrace :: rest) = some pre.length := by
  induction pre with
  | nil => simp [scanFirst]
  | cons c tl ih =>
    rw [List.mem_cons] at hpre
    push_neg at hpre
    simp [scanFirst, Ne.symm hpre.1, ih hpre.2]

theorem scanLast_none (l : List Char) (h : rbrace ∉ l) : scanLast l = none := by
  induction l with
  | nil => rfl
  | cons c tl ih =>
    rw [List.mem_cons] at h
    push_neg at h
    simp [scanLast, ih h.2, Ne.symm h.1]

theorem scanLast_append (l post : List Char) (hpost : rbrace ∉ post) :
    scanLast (l ++ rbrace :: post) = some l.length := by
  induction l with
  | nil => simp [scanLast, scanLast_none post hpost]
  | cons c tl ih => simp [scanLast, ih]

theorem not_mem_of_scanLast_none (l : List Char) (h : scanLast l = none) :
    rbrace ∉ l := by
  induction l with
  | nil => simp
  | cons c tl ih =>
    intro hmem
    rw [List.mem_cons] at hmem
    cases hs : scanLast tl with
    | some r => simp [scanLast, hs] at h
    | none =>
      simp only [scanLast, hs] at h
      by_cases hc : c = rbrace
      · simp [hc] at h
      · rcases hmem with h1 | h1
        · exact hc h1.symm
        · exact (ih hs) h1

theorem scanFirst_some (l : List Char) (i : Nat) (h : scanFirst l = some i) :
    ∃ pre rest, l = pre ++ lbrace :: rest ∧ lbrace ∉ pre ∧ pre.length = i := by
  induction l generalizing i with
  | nil => simp [scanFirst] at h
  | cons c tl ih =>
    by_cases hc : c = lbrace
    · subst hc
      simp [scanFirst] at h
      exact ⟨[], tl, by simp, by simp, by simpa using h⟩
    · simp only [scanFirst, hc, if_false] at h
      cases hs : scanFirst tl with
      | none => rw [hs] at h; simp at h
      | some j =>
        rw [hs] at h
        simp at h
        obtain ⟨pre, rest, hl, hpre, hlen⟩ := ih j hs
        refine ⟨c :: pre, rest, by simp [hl], ?_, by simp [hlen]; omega⟩
        rw [List.mem_cons]
        push_neg
        exact ⟨Ne.symm hc, hpre⟩

theorem scanLast_some (l : List Char) (j : Nat) (h : scanLast l = some j) :
    ∃ l2 post, l = l2 ++ rbrace :: post ∧ rbrace ∉ post ∧ l2.length = j := by
  induction l generalizing j with
  | nil => simp [scanLast] at h
  | cons c tl ih =>
    cases hs : scanLast tl with
    | some r =>
      simp only [scanLast, hs] at h
      simp only [Option.some.injEq] at h
      obtain ⟨l2, post, hl, hpost, hlen⟩ := ih r hs
      refine ⟨c :: l2, post, by simp [hl], hpost, ?_⟩
      simp [hlen]
      omega
    | none =>
      simp only [scanLast, hs] at h
      by_cases hc : c = rbrace
      · rw [if_pos hc] at h
        simp only [Option.some.injEq] at h
        exact ⟨[], tl, by simp [hc], not_mem_of_scanLast_none tl hs, by simpa using h⟩
      · rw [if_neg hc] at h
        exact absurd h (by simp)

/-- C7: tolerant JSON extraction.  When direct parsing of the response text
fails, the client re-parses exactly the substring from the first `'{'` to
the last `'}'` and returns the parsed map when that succeeds; when there is
no such substring (one of the braces missing, or the last `'}'` not after
the first `'{'`) or it also fails to parse, the call returns the
content-error value — the function is total, so it never panics. -/
theorem c7_tolerant_json_extraction (parse : String → Option GoMap) (s : String)
    (h : parse s = none) :
    (∀ pre mid post, s.data = pre ++ lbrace :: (mid ++ rbrace :: post) →
        lbrace ∉ pre → rbrace ∉ post →
        parseChatOutput parse s =
          (match parse (String.mk (lbrace :: (mid ++ [rbrace]))) with
           | some m => Except.ok m
           | none => Except.error nonJsonMsg)) ∧
    ((∀ pre mid post, ¬(s.data = pre ++ lbrace :: (mid ++ rbrace :: post) ∧
        lbrace ∉ pre ∧ rbrace ∉ post)) →
      parseChatOutput parse s = Except.error nonJsonMsg) := by
  constructor
  · intro pre mid post hdecomp hpre hpost
    have hf : scanFirst s.data = some pre.length := by
      rw [hdecomp]; exact scanFirst_append pre _ hpre
    have hlen2 : (pre ++ lbrace :: mid).length = pre.length + 1 + mid.length := by
      simp [List.length_append]; omega
    have hl : scanLast s.data = some (pre.length + 1 + mid.length) := by
      have hassoc : s.data = (pre ++ lbrace :: mid) ++ rbrace :: post := by
        rw [hdecomp]; simp
      rw [hassoc, scanLast_append _ _ hpost, hlen2]
    have hslice : (s.data.drop pre.length).take (pre.length + 1 + mid.length + 1 - pre.length)
        = lbrace :: (mid ++ [rbrace]) := by
      rw [hdecomp, List.drop_left]
      have harith : pre.length + 1 + mid.length + 1 - pre.length = mid.length + 2 := by omega
      rw [harith, List.take_succ_cons]
      congr 1
      rw [show mid.length + 1 = mid.length + 1 from rfl, List.take_append]
      simp
    unfold parseChatOutput
    simp only [h, hf, hl]
    rw [if_pos (by omega), hslice]
  · intro hno
    unfold parseChatOutput
    simp only [h]
    cases hf : scanFirst s.data with
    | none => simp
    | some st =>
      cases hl : scanLast s.data with
      | none => simp
      | some en =>
        by_cases hlt : st < en
        · exfalso
          obtain ⟨pre, rest, hd1, hpre, hlen1⟩ := scanFirst_some _ _ hf
          obtain ⟨l2, post, hd2, hpost, hlen2⟩ := scanLast_some _ _ hl
          have hpfx : s.data.take (st + 1) = pre ++ [lbrace] := by
            rw [hd1]
            have heq : st + 1 = (pre ++ [lbrace]).length := by simp [hlen1]
            rw [heq, show pre ++ lbrace :: rest = (pre ++ [lbrace]) ++ rest by simp]
            exact List.take_left _ _
          have hl2eq : l2 = s.data.take en := by
            rw [hd2, ← hlen2, List.take_left]
          have h1 : l2.take (st + 1) = pre ++ [lbrace] := by
            rw [hl2eq, List.take_take, min_eq_left (by omega), hpfx]
          have hl2 : l2 = (pre ++ [lbrace]) ++ l2.drop (st + 1) := by
            conv_lhs => rw [← List.take_append_drop (st + 1) l2]
            rw [h1]
          apply hno pre (l2.drop (st + 1)) post
          refine ⟨?_, hpre, hpost⟩
          have hfinal : s.data = ((pre ++ [lbrace]) ++ l2.drop (st + 1)) ++ rbrace :: post := by
            rw [hd2]
            exact congrArg (· ++ rbrace :: post) hl2
          rw [hfinal]
          simp
        · simp [hlt]

/-- A JSON parser stub accepting exactly the object substring of
`c7Input`. -/
def c7Parse : String → Option GoMap :=
  fun t => if t = String.mk [lbrace, 'x', rbrace] then some [("x", Jv.num 1)] else none

/-- A response text that wraps one JSON object in prose. -/
def c7Input : String := "noise " ++ String.mk [lbrace, 'x', rbrace] ++ " trailer"

theorem c7_tolerant_json_extraction_witness :
    parseChatOutput c7Parse c7Input = Except.ok [("x", Jv.num 1)] :=
  ((c7_tolerant_json_extraction c7Parse c7Input rfl).1
      "noise ".data ['x'] " trailer".data (by decide) (by decide) (by decide)).trans
    (by rfl)

/-! ## Claim C5 -/

theorem mget_backfillSection_ne (aggMap rm : GoMap) (key : String) (tf : Jv → Jv)
    (k : String) (h : k ≠ key) :
    mget (backfillSection aggMap rm key tf) k = mget rm k := by
  have hstep : ∀ (mm : GoMap),
      mget (match mget aggMap key with
            | some v => mset rm key (tf v)
            | none => rm) k = mget rm k := by
    intro mm
    cases mget aggMap key with
    | none => rfl
    | some v => exact mget_mset_ne _ _ _ _ h
  unfold backfillSection
  rcases hr : mget rm key with _ | v
  · exact hstep []
  · cases v with
    | arr xs => cases xs with
      | nil => exact hstep []
      | cons x tl => rfl
    | null => rfl
    | boolv b => rfl
    | num n => rfl
    | str s => rfl
    | obj kvs => rfl

theorem mget_backfillSections_meta (agg? : Option GoMap) (rm : GoMap) :
    mget (backfillSections agg? rm) "meta" = mget rm "meta" := by
  cases agg? with
  | none => rfl
  | some aggMap =>
    show mget (backfillSection aggMap _ "certifications" id) "meta" = _
    rw [mget_backfillSection_ne _ _ _ _ _ (by decide),
        mget_backfillSection_ne _ _ _ _ _ (by decide)]

theorem mget_backfillField_social (pm mo : GoMap) (key : String)
    (h : key ≠ "social_links") :
    mget (backfillField pm mo key) "social_links" = mget mo "social_links" := by
  unfold backfillField
  split
  · split
    · exact mget_mset_ne _ _ _ _ (Ne.symm h)
    · exact mget_mset_ne _ _ _ _ (Ne.symm h)
    · rfl
  · rfl

theorem mget_backfillContact_social (pm mo : GoMap) :
    mget (backfillContact pm mo) "social_links" = mget mo "social_links" := by
  unfold backfillContact
  split
  · split
    · exact mget_mset_ne _ _ _ _ (by decide)
    · exact mget_mset_ne _ _ _ _ (by decide)
    · rfl
  · rfl

theorem backfillSocial_fills (pm mo : GoMap) (sl : Jv)
    (hsl : mget pm "social_links" = some sl)
    (hmo : mget mo "social_links" = none ∨ mget mo "social_links" = some (Jv.obj [])) :
    mget (backfillSocial pm mo) "social_links" = some sl := by
  unfold backfillSocial
  rw [hsl]
  rcases hmo with hmo | hmo <;> rw [hmo] <;> simp <;> exact mget_mset_self _ _ _

theorem backfillSocial_preserves (pm mo : GoMap) (mm : GoMap)
    (hmo : mget mo "social_links" = some (Jv.obj mm)) (hne : mm ≠ []) :
    mget (backfillSocial pm mo) "social_links" = some (Jv.obj mm) := by
  unfold backfillSocial
  rcases mget pm "social_links" with _ | sl
  · exact hmo
  · rw [hmo]
    have : 0 < mm.length := by
      cases mm with
      | nil => exact absurd rfl hne
      | cons x tl => simp
    simp [this]
    exact hmo

/-- C5: backfill precedence for social links.  When aggregated profile data
is present (the profile-meta extraction yields a record carrying
`social_links`): if the content-service output left `meta.social_links`
absent or an empty map (or `meta` absent or non-object), the final document
carries the aggregated `social_links`; if the output already carried a
non-empty `meta.social_links` map, it is preserved and the aggregated value
does not overwrite it.  Both statements hold for the fully backfilled
document `backfillAll`, which is what `Process` hands to rendering. -/
theorem c5_social_links_backfill_precedence (aggMap rm pm : GoMap) (sl : Jv)
    (hpm : extractProfileMeta aggMap = some pm)
    (hsl : mget pm "social_links" = some sl) :
    ((∀ mo, mget rm "meta" = some (Jv.obj mo) →
        (mget mo "social_links" = none ∨ mget mo "social_links" = some (Jv.obj []))) →
      ∃ mo', mget (backfillAll (some aggMap) rm) "meta" = some (Jv.obj mo') ∧
        mget mo' "social_links" = some sl) ∧
    (∀ mo mm, mget rm "meta" = some (Jv.obj mo) →
      mget mo "social_links" = some (Jv.obj mm) → mm ≠ [] →
      ∃ mo', mget (backfillAll (some aggMap) rm) "meta" = some (Jv.obj mo') ∧
        mget mo' "social_links" = some (Jv.obj mm)) := by
  constructor
  · intro habsent
    have hsocial : mget (backfillSocial pm
        (backfillContact pm
          (backfillField pm (backfillField pm
            (match mget rm "meta" with
             | some (Jv.obj m) => m
             | _ => []) "name") "headline"))) "social_links" = some sl := by
      apply backfillSocial_fills pm _ sl hsl
      rw [mget_backfillContact_social,
          mget_backfillField_social _ _ _ (by decide),
          mget_backfillField_social _ _ _ (by decide)]
      rcases hrm : mget rm "meta" with _ | v
      · left; rfl
      · cases v with
        | obj mo => exact habsent mo hrm
        | null => left; rfl
        | boolv b => left; rfl
        | num n => left; rfl
        | str s => left; rfl
        | arr xs => left; rfl
    refine ⟨_, ?_, hsocial⟩
    rw [backfillAll, mget_backfillSections_meta, backfillMeta]
    simp only [hpm]
    exact mget_mset_self _ _ _
  · intro mo mm hrm hmo hne
    have hsocial : mget (backfillSocial pm
        (backfillContact pm
          (backfillField pm (backfillField pm
            (match mget rm "meta" with
             | some (Jv.obj m) => m
             | _ => []) "name") "headline"))) "social_links" = some (Jv.obj mm) := by
      apply backfillSocial_preserves pm _ mm _ hne
      rw [mget_backfillContact_social,
          mget_backfillField_social _ _ _ (by decide),
          mget_backfillField_social _ _ _ (by decide), hrm]
      exact hmo
    refine ⟨_, ?_, hsocial⟩
    rw [backfillAll, mget_backfillSections_meta, backfillMeta]
    simp only [hpm]
    exact mget_mset_self _ _ _

/-- A concrete aggregated record whose first profile carries flat
`social_links`. -/
def c5Agg : GoMap :=
  [("profiles", Jv.arr [Jv.obj
    [("name", Jv.str "Ada"),
     ("social_links", Jv.obj [("github", Jv.str "https://github.com/ada")])]])]

theorem c5_social_links_backfill_precedence_witness :
    ∃ mo', mget (backfillAll (some c5Agg)
        [("meta", Jv.obj [("name", Jv.str "Ada"), ("social_links", Jv.obj [])])])
        "meta" = some (Jv.obj mo') ∧
      mget mo' "social_links"
        = some (Jv.obj [("github", Jv.str "https://github.com/ada")]) :=
  (c5_social_links_backfill_precedence c5Agg
      [("meta", Jv.obj [("name", Jv.str "Ada"), ("social_links", Jv.obj [])])]
      [("name", Jv.str "Ada"),
       ("social_links", Jv.obj [("github", Jv.str "https://github.com/ada")])]
      (Jv.obj [("github", Jv.str "https://github.com/ada")])
      rfl rfl).1
    (fun mo hmo => by
      cases Option.some.inj hmo
      right; rfl)

/-! ## Claim C1 -/

/-- C1 amended: the final validation gate, for an arbitrary full-resume
validator.  If the assembled (normalized) document validates, the gate
passes it unchanged; if it fails, the single fallback copies only the keys
`publications`/`certifications`/`extras` onto the last-known-good base
document and re-validates; if that merged document still fails, `Process`
returns the validation error with no further fallback.  Soundness holds for
the gate's output: every document the gate lets through validates.  (The
claim's stronger form — that the document handed to rendering validates —
fails, because `Process` applies the aggregated backfill after the gate;
see the counterexample.) -/
theorem c1_amended_hard_gate (validate : GoMap → Bool) (rm base : GoMap) :
    (validate (normalizeForSchema rm) = true →
       finalGate validate rm base = Except.ok (normalizeForSchema rm)) ∧
    (validate (normalizeForSchema rm) = false →
     (copyOverrideKeys (normalizeForSchema rm) base).2 = true →
     validate (normalizeForSchema (copyOverrideKeys (normalizeForSchema rm) base).1) = true →
       finalGate validate rm base
         = Except.ok (normalizeForSchema (copyOverrideKeys (normalizeForSchema rm) base).1)) ∧
    (validate (normalizeForSchema rm) = false →
     (copyOverrideKeys (normalizeForSchema rm) base).2 = true →
     validate (normalizeForSchema (copyOverrideKeys (normalizeForSchema rm) base).1) = false →
       finalGate validate rm base = Except.error gateErrMsg) ∧
    (∀ d, finalGate validate rm base = Except.ok d → validate d = true) := by
  refine ⟨?_, ?_, ?_, ?_⟩
  · intro h1
    simp [finalGate, h1]
  · intro h1 h2 h3
    simp [finalGate, h1, h2, h3]
  · intro h1 h2 h3
    simp [finalGate, h1, h2, h3]
  · intro d hd
    unfold finalGate at hd
    rcases h1 : validate (normalizeForSchema rm) with _ | _
    · rw [h1] at hd
      simp only [Bool.false_eq_true, if_false] at hd
      rcases h2 : (copyOverrideKeys (normalizeForSchema rm) base).2 with _ | _
      · rw [h2] at hd
        simp only [Bool.false_eq_true, if_false] at hd
        rcases h3 : validate base with _ | _
        · rw [h3] at hd; simp at hd
        · rw [h3] at hd
          simp only [if_true] at hd
          cases Except.ok.inj hd
          exact h3
      · rw [h2] at hd
        simp only [if_true] at hd
        rcases h3 : validate (normalizeForSchema (copyOverrideKeys (normalizeForSchema rm) base).1) with _ | _
        · rw [h3] at hd; simp at hd
        · rw [h3] at hd
          simp only [if_true] at hd
          cases Except.ok.inj hd
          exact h3
    · rw [h1] at hd
      simp only [if_true] at hd
      cases Except.ok.inj hd
      exact h1

/-- A validator used to exercise the gate at a concrete input. -/
def c1WitValidate : GoMap → Bool := fun d => mhas d "ok"

theorem c1_amended_hard_gate_witness :
    finalGate c1WitValidate [("ok", Jv.num 1)] []
      = Except.ok (normalizeForSchema [("ok", Jv.num 1)]) :=
  (c1_amended_hard_gate c1WitValidate [("ok", Jv.num 1)] []).1 rfl

/-- A document that passes the full-resume schema without the optional
`certifications` key. -/
def c1Rm : GoMap :=
  [("meta", Jv.obj [("name", Jv.str "Ada Lovelace"),
                    ("headline", Jv.str "Analytical Engine Programmer"),
                    ("contact", Jv.obj [("email", Jv.str "ada@example.com")])]),
   ("summary", Jv.str "Pioneering software engineer with a decade of experience designing analytical engines and writing the very first published computer programs."),
   ("snapshot", Jv.obj [("tech", Jv.str "Analytical Engine, Punched Cards")]),
   ("experience", Jv.arr [Jv.obj [("company", Jv.str "Babbage & Co")]]),
   ("projects", Jv.arr [Jv.obj [("title", Jv.str "Notes on the Analytical Engine")]])]

/-- Aggregated data whose raw `certifications` rows are not schema-shaped
objects. -/
def c1Agg : GoMap := [("certifications", Jv.arr [Jv.num 42])]

/-- The document `Process` hands to rendering for these inputs: the
gate-validated document after the post-gate aggregated backfill. -/
def c1Final : GoMap := backfillAll (some c1Agg) (normalizeForSchema c1Rm)

/-- C1 counterexample: the gate passes (`postGate` proceeds), yet the
document handed to rendering fails the full resume schema, because the
certifications backfill from aggregated data runs after the gate and
injects non-object items. -/
theorem c1_counterexample :
    postGate validFullResume (some c1Agg) c1Rm [] = Except.ok c1Final ∧
    validFullResume (normalizeForSchema c1Rm) = true ∧
    validFullResume c1Final = false :=
  ⟨rfl, rfl, rfl⟩

end ResumeGen
